import Mathlib

/-!
Shallow embedding of the rollback dashboard pipeline (src/rollback.py).

Cell values are modelled as they stand after pandas `astype(str)`: every raw
cell is a string, with missing values rendered as the literal texts
"nan" / "None" / "NaT" (which is exactly what the script's sentinel
replacements look for).  Timestamps are modelled as seconds since the Unix
epoch (UTC); `pd.to_datetime(..., errors="coerce", utc=True)` is modelled by
an `Option Nat` carried by the raw row (`none` = NaT, i.e. an unparseable
timestamp).  Dataframes are lists of rows; `drop_duplicates(subset=ks)` is a
single left-to-right pass keeping the first row of each key, `groupby` +
`agg(count)` is grouping by first-occurrence key order followed by the
count of non-null aggregated values, and `sort_values(ascending=False)` is a
descending sort by the count column (the script's tie order is unspecified,
and no claim below depends on row order).
-/

namespace Rollback

/-- Whitespace stripping on a character list (Python `str.strip`). -/
def trimList (l : List Char) : List Char :=
  ((l.dropWhile Char.isWhitespace).reverse.dropWhile Char.isWhitespace).reverse

/-- Python `str.strip` (same semantics as `String.trim`, written over the
character list so that it evaluates inside the kernel). -/
def strTrim (s : String) : String :=
  String.mk (trimList s.data)

/-- Python `str.lower` (ASCII lowering, written over the character list). -/
def strLower (s : String) : String :=
  String.mk (s.data.map Char.toLower)

/-- Whether a character list ends in the two characters ".0". -/
def endsDot0 (l : List Char) : Bool :=
  match l.reverse with
  | '0' :: '.' :: _ => true
  | _ => false

/-- Removal of one trailing literal ".0", the regex replace in
`coerce_user_id` (line 53 of rollback.py). -/
def stripDot0 (s : String) : String :=
  if endsDot0 s.data then String.mk s.data.dropLast.dropLast else s

/-- `coerce_user_id` (lines 51-55): cast to text, drop a trailing ".0",
replace the exact texts "nan" / "None" / "NaT" by NA, then strip. -/
def coerce_user_id (s : String) : Option String :=
  let s1 := stripDot0 s
  if s1 = "nan" ∨ s1 = "None" ∨ s1 = "NaT" then none else some (strTrim s1)

/-- The cleaning of `game_name` and `reference` (lines 160-161): cast to
text, replace the exact texts "nan" / "None" by NA, then strip. -/
def clean_text (s : String) : Option String :=
  if s = "nan" ∨ s = "None" then none else some (strTrim s)

/-- The alias dictionary of `normalize_brand` (lines 83-93), applied to the
stripped lowercased value. -/
def brandAlias (x : String) : String :=
  if x = "7k" then "7K"
  else if x = "7kbet" then "7K"
  else if x = "7kbetbr" then "7K"
  else if x = "cassino" then "Cassino"
  else if x = "cassinobet" then "Cassino"
  else if x = "cassinobetbr" then "Cassino"
  else if x = "vera" then "Vera"
  else if x = "verabet" then "Vera"
  else if x = "verabetbr" then "Vera"
  else x

/-- The keys of the alias dictionary. -/
def aliasKeys : List String :=
  ["7k", "7kbet", "7kbetbr", "cassino", "cassinobet", "cassinobetbr",
   "vera", "verabet", "verabetbr"]

/-- `normalize_brand` (lines 78-96): strip, lowercase, alias lookup, then
map "nan" / "none" / "" to the fallback label "Sem Brand". -/
def normalize_brand (s : String) : String :=
  let x := brandAlias (strLower (strTrim s))
  if x = "nan" ∨ x = "none" ∨ x = "" then "Sem Brand" else x

/-- A raw row as read from the uploaded table, after `astype(str)` on the
text columns; `created_at` is the result of `pd.to_datetime(errors="coerce")`. -/
structure RawRow where
  user_id : String
  game_name : String
  reference : String
  created_at : Option Nat
  brand_name : String
deriving DecidableEq

/-- A cleaned row (the dataframe after lines 159-167). -/
structure CleanRow where
  user_id : Option String
  game_name : Option String
  reference : Option String
  created_at : Option Nat
  brand_name : String
deriving DecidableEq

/-- The per-row cleaning of lines 159-167. -/
def cleanRow (r : RawRow) : CleanRow :=
  { user_id := coerce_user_id r.user_id
    game_name := clean_text r.game_name
    reference := clean_text r.reference
    created_at := r.created_at
    brand_name := normalize_brand r.brand_name }

/-- The whole-table cleaning. -/
def cleanTable (t : List RawRow) : List CleanRow :=
  t.map cleanRow

/-- Invariant I1, lines 170-171: `dropna(subset=["reference","created_at"])`
followed by keeping rows whose reference text is non-empty. -/
def validRow (r : CleanRow) : Bool :=
  match r.reference, r.created_at with
  | some s, some _ => decide (0 < s.length)
  | _, _ => false

/-- The table surviving invariant I1. -/
def validRows (t : List CleanRow) : List CleanRow :=
  t.filter validRow

/-- Contiguous-sublist test on character lists (the substring semantics of
`str.contains` for a literal pattern). -/
def substrAt : List Char → List Char → Bool
  | needle, [] => needle.isEmpty
  | needle, c :: rest => needle.isPrefixOf (c :: rest) || substrAt needle rest

/-- Case-insensitive substring test, `str.contains(pat, case=False)` for a
literal pattern. -/
def containsCI (hay pat : String) : Bool :=
  substrAt (strLower pat).data (strLower hay).data

/-- `astype(str)` on a column that may hold pandas NA: a missing value is
rendered as the text "NA" in angle brackets; pandas prints it that way, and
lines 192-194 call `astype(str)` before `str.contains`. -/
def optText (o : Option String) : String :=
  match o with
  | some s => s
  | none => "<NA>"

/-- The sidebar filter configuration (lines 183-186): a brand multiselect
and two substring text inputs. -/
structure FilterCfg where
  f_brand : List String
  f_user : String
  f_game : String
deriving DecidableEq

/-- Line 190: `dff[dff["brand_name"].isin(f_brand)]`, applied only when the
multiselect is non-empty. -/
def brandFilter (cfg : FilterCfg) (t : List CleanRow) : List CleanRow :=
  if cfg.f_brand.isEmpty then t
  else t.filter (fun r => cfg.f_brand.contains r.brand_name)

/-- Line 192: the case-insensitive user_id substring filter, applied only
when the text input is non-empty. -/
def userFilter (cfg : FilterCfg) (t : List CleanRow) : List CleanRow :=
  if cfg.f_user = "" then t
  else t.filter (fun r => containsCI (optText r.user_id) cfg.f_user)

/-- Line 194: the case-insensitive game_name substring filter. -/
def gameFilter (cfg : FilterCfg) (t : List CleanRow) : List CleanRow :=
  if cfg.f_game = "" then t
  else t.filter (fun r => containsCI (optText r.game_name) cfg.f_game)

/-- Lines 188-194: the three sidebar filters in order. -/
def applyFilters (cfg : FilterCfg) (t : List CleanRow) : List CleanRow :=
  gameFilter cfg (userFilter cfg (brandFilter cfg t))

/-- The empty filter configuration (nothing selected, empty text inputs). -/
def noFilter : FilterCfg :=
  ⟨[], "", ""⟩

/-- `drop_duplicates(subset=...)`: one left-to-right pass keeping each row
whose key was not seen before. -/
def dedupByAux {α κ : Type} [DecidableEq κ] (key : α → κ) : List κ → List α → List α
  | _, [] => []
  | seen, a :: as =>
    if key a ∈ seen then dedupByAux key seen as
    else a :: dedupByAux key (key a :: seen) as

/-- `drop_duplicates(subset=...)` with an empty seen set. -/
def dedupBy {α κ : Type} [DecidableEq κ] (key : α → κ) (l : List α) : List α :=
  dedupByAux key [] l

/-- The FactRow dedup key of line 203: (brand_name, reference). -/
def refKey (r : CleanRow) : String × Option String :=
  (r.brand_name, r.reference)

/-- The ClientGameFact dedup key of line 207:
(brand_name, user_id, game_name, reference). -/
def cjKey (r : CleanRow) : String × Option String × Option String × Option String :=
  (r.brand_name, r.user_id, r.game_name, r.reference)

/-- The grouping key of line 208: (brand_name, user_id, game_name). -/
def cjKey3 (r : CleanRow) : String × Option String × Option String :=
  (r.brand_name, r.user_id, r.game_name)

/-- `dff` (lines 188-198): the cleaned table after invariant I1 and the
sidebar filters. -/
def dff (cfg : FilterCfg) (t : List CleanRow) : List CleanRow :=
  applyFilters cfg (validRows t)

/-- `refs_brand` (line 203): the FactRow table, `dff` deduplicated on
(brand_name, reference). -/
def refs_brand (cfg : FilterCfg) (t : List CleanRow) : List CleanRow :=
  dedupBy refKey (dff cfg t)

/-- `agg(qtd_rollbacks=("reference", "count"))` on one group: pandas `count`
counts the non-null values. -/
def countRef (g : List CleanRow) : Nat :=
  (g.filter (fun r => r.reference.isSome)).length

/-- `groupby(keys).agg(qtd_rollbacks=("reference", "count"))`: one output
row per distinct key, carrying the count of non-null references among the
rows of that key. -/
def groupAgg {κ : Type} [DecidableEq κ] (key : CleanRow → κ) (l : List CleanRow) :
    List (κ × Nat) :=
  (dedupBy id (l.map key)).map
    (fun k => (k, countRef (l.filter (fun r => decide (key r = k)))))

/-- `sort_values("qtd_rollbacks", ascending=False)` on a keyed count table. -/
def sortDescQtd {κ : Type} (l : List (κ × Nat)) : List (κ × Nat) :=
  List.insertionSort (fun a b => b.2 ≤ a.2) l

/-- The `dropna(subset=["user_id","game_name","reference"])` predicate of
line 206. -/
def cj_dropna (r : CleanRow) : Bool :=
  r.user_id.isSome && r.game_name.isSome && r.reference.isSome

/-- `cliente_jogo` (lines 205-211): drop rows with absent user/game/ref,
dedup on (brand, user, game, reference), group by (brand, user, game),
count references, sort by count descending. -/
def cliente_jogo (cfg : FilterCfg) (t : List CleanRow) :
    List ((String × Option String × Option String) × Nat) :=
  sortDescQtd (groupAgg cjKey3 (dedupBy cjKey ((dff cfg t).filter cj_dropna)))

/-- The time-bucket granularity of the sidebar (line 108): "T" = minute,
"H" = hour. -/
inductive Freq
  | minute
  | hour
deriving DecidableEq

/-- `dt.floor(freq)` on an epoch-seconds instant. -/
def floorTo (f : Freq) (t : Nat) : Nat :=
  match f with
  | .hour => t - t % 3600
  | .minute => t - t % 60

/-- Zero-padding to two digits, the %d / %m / %H / %M fields of strftime. -/
def pad2 (n : Nat) : String :=
  if n < 10 then "0" ++ toString n else toString n

/-- Proleptic-Gregorian civil date from days since 1970-01-01
(the standard era-based conversion used by date libraries). -/
def civilFromDays (z0 : Nat) : Nat × Nat × Nat :=
  let z := z0 + 719468
  let era := z / 146097
  let doe := z % 146097
  let yoe := (doe - doe / 1460 + doe / 36524 - doe / 146096) / 365
  let y := yoe + era * 400
  let doy := doe - (365 * yoe + yoe / 4 - yoe / 100)
  let mp := (5 * doy + 2) / 153
  let d := doy - (153 * mp + 2) / 5 + 1
  let m := if mp < 10 then mp + 3 else mp - 9
  (if m ≤ 2 then y + 1 else y, m, d)

/-- `strftime("%d/%m/%Y %H:%M")` on an epoch-seconds UTC instant. -/
def fmtTimestamp (t : Nat) : String :=
  let days := t / 86400
  let secs := t % 86400
  let ymd := civilFromDays days
  pad2 ymd.2.2 ++ "/" ++ pad2 ymd.2.1 ++ "/" ++ toString ymd.1 ++ " " ++
    pad2 (secs / 3600) ++ ":" ++ pad2 (secs % 3600 / 60)

/-- The grouping key of line 215: (brand_name, bucket_time) where
bucket_time is `created_at` floored to the chosen granularity (line 213). -/
def bucketKey (f : Freq) (r : CleanRow) : String × Option Nat :=
  (r.brand_name, r.created_at.map (floorTo f))

/-- One row of the `horarios` table (lines 214-219). -/
structure HorarioRow where
  brand_name : String
  bucket_time : Option Nat
  qtd_rollbacks : Nat
  horario_utc : String
deriving DecidableEq

/-- `horarios` built from an already-deduplicated FactRow table: group by
(brand, bucket), count, sort by count descending, then add the formatted
bucket-start string (line 219). -/
def horariosFrom (f : Freq) (rb : List CleanRow) : List HorarioRow :=
  (sortDescQtd (groupAgg (bucketKey f) rb)).map
    (fun p => ⟨p.1.1, p.1.2, p.2,
      match p.1.2 with
      | some b => fmtTimestamp b
      | none => "NaT"⟩)

/-- `horarios` (lines 213-219). -/
def horarios (f : Freq) (cfg : FilterCfg) (t : List CleanRow) : List HorarioRow :=
  horariosFrom f (refs_brand cfg t)

/-- The grouping key of line 223: (brand_name, game_name). -/
def gameKey (r : CleanRow) : String × Option String :=
  (r.brand_name, r.game_name)

/-- `jogos` built from an already-deduplicated FactRow table (lines 221-226):
drop rows with absent game_name, group by (brand, game), count, sort. -/
def jogosFrom (rb : List CleanRow) : List ((String × Option String) × Nat) :=
  sortDescQtd (groupAgg gameKey (rb.filter (fun r => r.game_name.isSome)))

/-- `jogos` (lines 221-226). -/
def jogos (cfg : FilterCfg) (t : List CleanRow) : List ((String × Option String) × Nat) :=
  jogosFrom (refs_brand cfg t)

/-- `top_jogos_geral` built from the `jogos` table (lines 228-232): group by
game_name, sum the counts, sort by the summed count descending. -/
def topJogosFrom (j : List ((String × Option String) × Nat)) :
    List (Option String × Nat) :=
  sortDescQtd ((dedupBy id (j.map (fun e => e.1.2))).map
    (fun g => (g, ((j.filter (fun e => decide (e.1.2 = g))).map (fun e => e.2)).sum)))

/-- `top_jogos_geral` (lines 228-232). -/
def top_jogos_geral (cfg : FilterCfg) (t : List CleanRow) : List (Option String × Nat) :=
  topJogosFrom (jogos cfg t)

/-- `total_rollbacks` (line 237):
`refs_brand.groupby("brand_name")["reference"].nunique().sum()` — per
distinct brand the number of distinct non-null references, summed. -/
def total_rollbacks (cfg : FilterCfg) (t : List CleanRow) : Nat :=
  let rb := refs_brand cfg t
  ((dedupBy id (rb.map (fun r => r.brand_name))).map
    (fun b => (dedupBy id
      ((rb.filter (fun r => decide (r.brand_name = b))).filterMap
        (fun r => r.reference))).length)).sum

/-- The five required column names (line 149). -/
def required5 : List String :=
  ["user_id", "game_name", "reference", "created_at", "brand_name"]

/-- The header key of `require_cols` (line 70): `c.lower().strip()`. -/
def headerKey (c : String) : String :=
  strTrim (strLower c)

/-- Whether some header matches a required name case-insensitively with
surrounding whitespace ignored. -/
def hasCol (cols : List String) (r : String) : Bool :=
  cols.any (fun c => headerKey c == r)

/-- The original header a required name is mapped to (line 70 builds a dict
by comprehension, so of several case-variant duplicates the last wins). -/
def colLookup (cols : List String) (r : String) : String :=
  (cols.filter (fun c => headerKey c == r)).getLastD ""

/-- `require_cols` (lines 69-76): one validation pass over the headers only;
an error carries every missing required name, success carries the
required-to-original mapping. -/
def require_cols (cols : List String) : Except (List String) (List (String × String)) :=
  let missing := required5.filter (fun r => !hasCol cols r)
  if missing.isEmpty then .ok (required5.map (fun r => (r, colLookup cols r)))
  else .error missing

/-- Modelled from the spec sentence of C3 ("first deduplicating the full
clean table to the deduplicated base and then applying the filters"): the
FactRow table with dedup and filters in the opposite order of line 203. -/
def refs_brand_dedupThenFilter (cfg : FilterCfg) (t : List CleanRow) : List CleanRow :=
  applyFilters cfg (dedupBy refKey (validRows t))

/-- Modelled from the spec sentence of C3, for the per-user-game view: dedup
the full clean table on the (brand, user, game, reference) key, then filter,
then group. -/
def cliente_jogo_dedupThenFilter (cfg : FilterCfg) (t : List CleanRow) :
    List ((String × Option String × Option String) × Nat) :=
  sortDescQtd (groupAgg cjKey3
    (applyFilters cfg (dedupBy cjKey ((validRows t).filter cj_dropna))))

/-! ### Helper lemmas about the single-pass deduplication -/

theorem mem_of_mem_dedupByAux {α κ : Type} [DecidableEq κ] (key : α → κ) :
    ∀ (seen : List κ) (l : List α) (a : α), a ∈ dedupByAux key seen l → a ∈ l := by
  intro seen l
  induction l generalizing seen with
  | nil => intro a h; simp [dedupByAux] at h
  | cons b bs ih =>
    intro a h
    simp only [dedupByAux] at h
    split at h
    · exact List.mem_cons_of_mem _ (ih seen a h)
    · rcases List.mem_cons.mp h with rfl | h
      · exact List.mem_cons_self _ _
      · exact List.mem_cons_of_mem _ (ih _ a h)

theorem key_notMem_of_mem_dedupByAux {α κ : Type} [DecidableEq κ] (key : α → κ) :
    ∀ (seen : List κ) (l : List α) (a : α), a ∈ dedupByAux key seen l → key a ∉ seen := by
  intro seen l
  induction l generalizing seen with
  | nil => intro a h; simp [dedupByAux] at h
  | cons b bs ih =>
    intro a h
    simp only [dedupByAux] at h
    split at h
    · exact ih seen a h
    · rcases List.mem_cons.mp h with rfl | h
      · assumption
      · intro hmem
        exact ih _ a h (List.mem_cons_of_mem _ hmem)

theorem pairwise_dedupByAux {α κ : Type} [DecidableEq κ] (key : α → κ) :
    ∀ (seen : List κ) (l : List α),
      (dedupByAux key seen l).Pairwise (fun a b => key a ≠ key b) := by
  intro seen l
  induction l generalizing seen with
  | nil => simp [dedupByAux]
  | cons b bs ih =>
    simp only [dedupByAux]
    split
    · exact ih seen
    · refine List.Pairwise.cons ?_ (ih _)
      intro a ha
      have := key_notMem_of_mem_dedupByAux key _ _ a ha
      intro hEq
      exact this (hEq ▸ List.mem_cons_self _ _)

theorem pairwise_dedupBy {α κ : Type} [DecidableEq κ] (key : α → κ) (l : List α) :
    (dedupBy key l).Pairwise (fun a b => key a ≠ key b) :=
  pairwise_dedupByAux key [] l

theorem dedupByAux_congr_seen {α κ : Type} [DecidableEq κ] (key : α → κ) :
    ∀ (l : List α) (seen₁ seen₂ : List κ),
      (∀ a ∈ l, key a ∈ seen₁ ↔ key a ∈ seen₂) →
      dedupByAux key seen₁ l = dedupByAux key seen₂ l := by
  intro l
  induction l with
  | nil => intro seen₁ seen₂ h; rfl
  | cons b bs ih =>
    intro seen₁ seen₂ h
    have hb := h b (List.mem_cons_self _ _)
    simp only [dedupByAux]
    by_cases hmem : key b ∈ seen₁
    · rw [if_pos hmem, if_pos (hb.mp hmem)]
      exact ih seen₁ seen₂ (fun a ha => h a (List.mem_cons_of_mem _ ha))
    · rw [if_neg hmem, if_neg (fun hc => hmem (hb.mpr hc))]
      refine congrArg (b :: ·) (ih _ _ ?_)
      intro a ha
      simp only [List.mem_cons]
      exact or_congr Iff.rfl (h a (List.mem_cons_of_mem _ ha))

theorem dedupByAux_push {α κ : Type} [DecidableEq κ] (key : α → κ) (x : κ) :
    ∀ (l : List α) (seen : List κ),
      dedupByAux key (x :: seen) l =
        dedupByAux key seen (l.filter (fun b => decide (key b ≠ x))) := by
  intro l
  induction l with
  | nil => intro seen; rfl
  | cons b bs ih =>
    intro seen
    by_cases hbx : key b = x
    · have : (decide (key b ≠ x)) = false := by simp [hbx]
      rw [List.filter_cons, this]
      simp only [dedupByAux, List.mem_cons, hbx, true_or, if_pos]
      exact ih seen
    · have : (decide (key b ≠ x)) = true := by simp [hbx]
      rw [List.filter_cons, this]
      simp only [dedupByAux]
      by_cases hbs : key b ∈ seen
      · rw [if_pos (List.mem_cons_of_mem _ hbs), if_pos hbs]
        exact ih seen
      · have hnot : key b ∉ x :: seen := by
          simp [List.mem_cons, hbx, hbs]
        rw [if_neg hnot, if_neg hbs]
        refine congrArg (b :: ·) ?_
        have swap : dedupByAux key (key b :: x :: seen) bs
            = dedupByAux key (x :: key b :: seen) bs := by
          refine dedupByAux_congr_seen key bs _ _ ?_
          intro a ha
          simp only [List.mem_cons]
          constructor
          · rintro (h | h | h) <;> simp [h]
          · rintro (h | h | h) <;> simp [h]
        rw [swap, ih (key b :: seen)]

theorem dedupBy_cons {α κ : Type} [DecidableEq κ] (key : α → κ) (a : α) (l : List α) :
    dedupBy key (a :: l) =
      a :: dedupBy key (l.filter (fun b => decide (key b ≠ key a))) := by
  show dedupByAux key [] (a :: l) = _
  simp only [dedupByAux, List.not_mem_nil, if_neg (fun h => h)]
  exact congrArg (a :: ·) (dedupByAux_push key (key a) l [])

theorem filter_key_dedupByAux {α κ : Type} [DecidableEq κ] (key : α → κ) (k : κ) :
    ∀ (l : List α) (seen : List κ),
      (dedupByAux key seen l).filter (fun a => decide (key a = k)) =
        if k ∈ seen then [] else (l.find? (fun a => decide (key a = k))).toList := by
  intro l
  induction l with
  | nil =>
    intro seen
    by_cases h : k ∈ seen <;> simp [dedupByAux, h]
  | cons b bs ih =>
    intro seen
    simp only [dedupByAux]
    by_cases hbs : key b ∈ seen
    · rw [if_pos hbs, ih seen]
      by_cases hk : k ∈ seen
      · simp [hk]
      · rw [if_neg hk, if_neg hk]
        have hbk : (decide (key b = k)) = false := by
          simp only [decide_eq_false_iff_not]
          intro h; exact hk (h ▸ hbs)
        rw [List.find?_cons, hbk]
    · rw [if_neg hbs]
      by_cases hbk : key b = k
      · have hd : (decide (key b = k)) = true := by simp [hbk]
        rw [List.filter_cons, hd, List.find?_cons, hd]
        have hempty : (dedupByAux key (key b :: seen) bs).filter
            (fun a => decide (key a = k)) = [] := by
          rw [List.filter_eq_nil_iff]
          intro a ha
          have := key_notMem_of_mem_dedupByAux key _ _ a ha
          simp only [decide_eq_true_eq]
          intro hak
          exact this (by rw [hak, ← hbk]; exact List.mem_cons_self _ _)
        rw [hempty]
        rw [if_neg (fun h => hbs (hbk ▸ h))]
        rfl
      · have hd : (decide (key b = k)) = false := by simp [hbk]
        rw [List.filter_cons, List.find?_cons, ih (key b :: seen)]
        simp only [hd, Bool.false_eq_true, if_false]
        have hiff : (k ∈ key b :: seen) ↔ (k ∈ seen) := by
          constructor
          · intro h
            rcases List.mem_cons.mp h with h | h
            · exact absurd h.symm hbk
            · exact h
          · exact fun h => List.mem_cons_of_mem _ h
        simp only [hiff]

theorem filter_key_dedupBy {α κ : Type} [DecidableEq κ] (key : α → κ) (k : κ) (l : List α) :
    (dedupBy key l).filter (fun a => decide (key a = k)) =
      (l.find? (fun a => decide (key a = k))).toList := by
  have := filter_key_dedupByAux key k l []
  simpa [dedupBy] using this

theorem dedupByAux_filter_comm {α κ : Type} [DecidableEq κ] (key : α → κ) (p : α → Bool)
    (hp : ∀ a b, key a = key b → p a = p b) :
    ∀ (l : List α) (seen : List κ),
      (dedupByAux key seen l).filter p = dedupByAux key seen (l.filter p) := by
  intro l
  induction l with
  | nil => intro seen; rfl
  | cons b bs ih =>
    intro seen
    by_cases hbs : key b ∈ seen
    · simp only [dedupByAux, if_pos hbs, List.filter_cons]
      cases hpb : p b with
      | true =>
        simp only [if_pos rfl, dedupByAux, if_pos hbs]
        exact ih seen
      | false =>
        simp only [Bool.false_eq_true, if_false]
        exact ih seen
    · simp only [dedupByAux, if_neg hbs, List.filter_cons]
      cases hpb : p b with
      | true =>
        simp only [if_pos rfl, dedupByAux, if_neg hbs, List.filter_cons, hpb]
        exact congrArg (b :: ·) (ih _)
      | false =>
        simp only [Bool.false_eq_true, if_false, hpb]
        rw [ih (key b :: seen)]
        rw [dedupByAux_push key (key b) (bs.filter p) seen]
        refine congrArg (dedupByAux key seen) ?_
        rw [List.filter_filter]
        refine (List.filter_congr ?_).symm
        intro a ha
        cases hpa : p a with
        | false => simp
        | true =>
          have : (decide (key a ≠ key b)) = true := by
            simp only [decide_eq_true_eq]
            intro hk
            rw [hp a b hk, hpb] at hpa
            exact Bool.false_ne_true hpa
          simp [this]

theorem dedupBy_filter_comm {α κ : Type} [DecidableEq κ] (key : α → κ) (p : α → Bool)
    (hp : ∀ a b, key a = key b → p a = p b) (l : List α) :
    (dedupBy key l).filter p = dedupBy key (l.filter p) :=
  dedupByAux_filter_comm key p hp l []

theorem dedupByAux_eq_self {α κ : Type} [DecidableEq κ] (key : α → κ) :
    ∀ (l : List α) (seen : List κ), (∀ a ∈ l, key a ∉ seen) →
      l.Pairwise (fun a b => key a ≠ key b) → dedupByAux key seen l = l := by
  intro l
  induction l with
  | nil => intro seen _ _; rfl
  | cons b bs ih =>
    intro seen hseen hpw
    have hb : key b ∉ seen := hseen b (List.mem_cons_self _ _)
    simp only [dedupByAux, if_neg hb]
    refine congrArg (b :: ·) (ih _ ?_ (List.Pairwise.of_cons hpw))
    intro a ha
    simp only [List.mem_cons]
    rintro (h | h)
    · exact (List.pairwise_cons.mp hpw).1 a ha h.symm
    · exact hseen a (List.mem_cons_of_mem _ ha) h

theorem dedupBy_eq_self {α κ : Type} [DecidableEq κ] (key : α → κ) (l : List α)
    (h : l.Pairwise (fun a b => key a ≠ key b)) : dedupBy key l = l :=
  dedupByAux_eq_self key l [] (fun _ _ => List.not_mem_nil _) h

theorem mem_dedupByAux_id {κ : Type} [DecidableEq κ] :
    ∀ (l : List κ) (seen : List κ) (k : κ),
      k ∈ dedupByAux id seen l ↔ (k ∈ l ∧ k ∉ seen) := by
  intro l
  induction l with
  | nil => intro seen k; simp [dedupByAux]
  | cons b bs ih =>
    intro seen k
    simp only [dedupByAux]
    by_cases hbs : (id b : κ) ∈ seen
    · rw [if_pos hbs, ih]
      constructor
      · rintro ⟨h1, h2⟩
        exact ⟨List.mem_cons_of_mem _ h1, h2⟩
      · rintro ⟨h1, h2⟩
        rcases List.mem_cons.mp h1 with rfl | h1
        · exact absurd hbs h2
        · exact ⟨h1, h2⟩
    · rw [if_neg hbs, List.mem_cons, ih]
      constructor
      · rintro (rfl | ⟨h1, h2⟩)
        · exact ⟨List.mem_cons_self _ _, hbs⟩
        · exact ⟨List.mem_cons_of_mem _ h1, fun hc => h2 (List.mem_cons_of_mem _ hc)⟩
      · rintro ⟨h1, h2⟩
        rcases List.mem_cons.mp h1 with rfl | h1
        · exact Or.inl rfl
        · by_cases hkb : k = b
          · exact Or.inl hkb
          · refine Or.inr ⟨h1, fun hc => ?_⟩
            rcases List.mem_cons.mp hc with h | h
            · exact hkb h
            · exact h2 h

theorem mem_dedupBy_id {κ : Type} [DecidableEq κ] (l : List κ) (k : κ) :
    k ∈ dedupBy id l ↔ k ∈ l := by
  simp [dedupBy, mem_dedupByAux_id]

theorem length_filter_add_length_not {α : Type} (p : α → Bool) (l : List α) :
    (l.filter p).length + (l.filter (fun a => !p a)).length = l.length := by
  induction l with
  | nil => rfl
  | cons b bs ih =>
    rw [List.filter_cons, List.filter_cons]
    cases hpb : p b with
    | true =>
      simp only [hpb, Bool.not_true, Bool.false_eq_true, if_false, if_true,
        eq_self_iff_true, List.length_cons]
      omega
    | false =>
      simp only [hpb, Bool.not_false, Bool.false_eq_true, if_false, if_true,
        eq_self_iff_true, List.length_cons]
      omega

theorem filter_map_comp {α κ : Type} (f : α → κ) (p : κ → Bool) (l : List α) :
    (l.map f).filter p = (l.filter (fun a => p (f a))).map f := by
  induction l with
  | nil => rfl
  | cons b bs ih =>
    cases hpb : p (f b) with
    | true => simp [List.filter_cons, hpb, ih]
    | false => simp [List.filter_cons, hpb, ih]

theorem sum_counts_by_key {α κ : Type} [DecidableEq κ] (f : α → κ) : (l : List α) →
    ((dedupBy id (l.map f)).map
      (fun k => (l.filter (fun a => decide (f a = k))).length)).sum = l.length
  | [] => by simp [dedupBy, dedupByAux]
  | a :: as => by
    have hcons : dedupBy id ((a :: as).map f) =
        f a :: dedupBy id ((as.map f).filter (fun k => decide (k ≠ f a))) := by
      rw [List.map_cons]
      exact dedupBy_cons id (f a) (as.map f)
    have hmf : (as.map f).filter (fun k => decide (k ≠ f a)) =
        (as.filter (fun x => decide (f x ≠ f a))).map f :=
      filter_map_comp f (fun k => decide (k ≠ f a)) as
    have ih := sum_counts_by_key f (as.filter (fun x => decide (f x ≠ f a)))
    rw [hcons, hmf, List.map_cons, List.sum_cons]
    have hhead : ((a :: as).filter (fun x => decide (f x = f a))).length =
        (as.filter (fun x => decide (f x = f a))).length + 1 := by
      have hda : (decide (f a = f a)) = true := by simp
      rw [List.filter_cons, hda, if_pos rfl, List.length_cons]
    have htail : (dedupBy id ((as.filter (fun x => decide (f x ≠ f a))).map f)).map
          (fun k => ((a :: as).filter (fun x => decide (f x = k))).length) =
        (dedupBy id ((as.filter (fun x => decide (f x ≠ f a))).map f)).map
          (fun k => ((as.filter (fun x => decide (f x ≠ f a))).filter
            (fun x => decide (f x = k))).length) := by
      refine List.map_congr_left ?_
      intro k hk
      have hk2 : k ∈ (as.filter (fun x => decide (f x ≠ f a))).map f :=
        (mem_dedupBy_id _ k).mp hk
      rcases List.mem_map.mp hk2 with ⟨x, hx, rfl⟩
      have hxne : (decide (f x ≠ f a)) = true := (List.mem_filter.mp hx).2
      have hne : f x ≠ f a := of_decide_eq_true hxne
      have h1 : ((a :: as).filter (fun y => decide (f y = f x))).length =
          (as.filter (fun y => decide (f y = f x))).length := by
        have : (decide (f a = f x)) = false := by
          simp only [decide_eq_false_iff_not]
          exact fun h => hne h.symm
        simp [List.filter_cons, this]
      rw [h1]
      congr 1
      rw [List.filter_filter]
      refine List.filter_congr ?_
      intro y _
      cases hy : (decide (f y = f x)) with
      | false => simp
      | true =>
        have : f y = f x := of_decide_eq_true hy
        have : (decide (f y ≠ f a)) = true := by
          simp only [decide_eq_true_eq]
          rw [this]; exact hne
        simp [this]
    rw [htail, ih, hhead]
    have hsplit := length_filter_add_length_not (fun x => decide (f x = f a)) as
    have hnot : (as.filter (fun x => !decide (f x = f a))) =
        (as.filter (fun x => decide (f x ≠ f a))) := by
      refine List.filter_congr ?_
      intro y _
      simp
    rw [hnot] at hsplit
    simp only [List.length_cons]
    omega
termination_by l => l.length
decreasing_by simp only [List.length_cons]; exact Nat.lt_succ_of_le (List.length_filter_le _ _)

/-! ### Pipeline-level lemmas -/

theorem mem_of_mem_brandFilter {cfg : FilterCfg} {t : List CleanRow} {r : CleanRow}
    (h : r ∈ brandFilter cfg t) : r ∈ t := by
  unfold brandFilter at h
  split at h
  · exact h
  · exact (List.mem_filter.mp h).1

theorem mem_of_mem_userFilter {cfg : FilterCfg} {t : List CleanRow} {r : CleanRow}
    (h : r ∈ userFilter cfg t) : r ∈ t := by
  unfold userFilter at h
  split at h
  · exact h
  · exact (List.mem_filter.mp h).1

theorem mem_of_mem_gameFilter {cfg : FilterCfg} {t : List CleanRow} {r : CleanRow}
    (h : r ∈ gameFilter cfg t) : r ∈ t := by
  unfold gameFilter at h
  split at h
  · exact h
  · exact (List.mem_filter.mp h).1

theorem mem_of_mem_applyFilters {cfg : FilterCfg} {t : List CleanRow} {r : CleanRow}
    (h : r ∈ applyFilters cfg t) : r ∈ t :=
  mem_of_mem_brandFilter (mem_of_mem_userFilter (mem_of_mem_gameFilter h))

theorem applyFilters_noFilter (t : List CleanRow) : applyFilters noFilter t = t := rfl

theorem validRows_idem (t : List CleanRow) : validRows (validRows t) = validRows t := by
  simp [validRows, List.filter_filter]

theorem validRow_of_mem_refs_brand {cfg : FilterCfg} {t : List CleanRow} {r : CleanRow}
    (h : r ∈ refs_brand cfg t) : validRow r = true := by
  have h1 : r ∈ dff cfg t := mem_of_mem_dedupByAux refKey [] _ r h
  have h2 : r ∈ validRows t := mem_of_mem_applyFilters h1
  exact (List.mem_filter.mp h2).2

/-! ### Claims about the Normalizer and the Brand Classifier (C4, C5, C7) -/

/-- C4 counterexample: the fallback label "Sem Brand" is not a fixed point
of the classifier — classifying it yields "sem brand" (it is lowercased,
matches no alias, and is not sentinel text), so the classifier is not
idempotent on every label it can emit. -/
theorem c4_counterexample_fallback_not_fixed :
    normalize_brand "Sem Brand" ≠ "Sem Brand" := by
  decide

/-- C4 (amended): the classifier is idempotent on the three canonical brand
labels "7K", "Cassino" and "Vera"; the fallback label "Sem Brand" instead
classifies to "sem brand"; classification depends only on the stripped
lowercased input, so any two casings of any alias spelling of a brand all
yield that brand's canonical label, as the nine alias evaluations show. -/
theorem c4_amended_idempotence :
    normalize_brand "7K" = "7K" ∧ normalize_brand "Cassino" = "Cassino" ∧
      normalize_brand "Vera" = "Vera" ∧
      normalize_brand "Sem Brand" = "sem brand" ∧
      (∀ s₁ s₂ : String, strLower (strTrim s₁) = strLower (strTrim s₂) →
        normalize_brand s₁ = normalize_brand s₂) ∧
      normalize_brand "7k" = "7K" ∧ normalize_brand "7KBET" = "7K" ∧
      normalize_brand "7kBetBr" = "7K" ∧
      normalize_brand "cassino" = "Cassino" ∧ normalize_brand "CassinoBet" = "Cassino" ∧
      normalize_brand "CASSINOBETBR" = "Cassino" ∧
      normalize_brand "vera" = "Vera" ∧ normalize_brand "VeraBet" = "Vera" ∧
      normalize_brand "verabetbr" = "Vera" := by
  refine ⟨by decide, by decide, by decide, by decide, ?_, by decide, by decide, by decide,
    by decide, by decide, by decide, by decide, by decide, by decide⟩
  intro s₁ s₂ h
  unfold normalize_brand
  rw [h]

/-- C5 counterexample: the sentinel mapping is not casing-insensitive — the
user_id value "NONE" survives as the text "NONE" instead of becoming the
absent marker. -/
theorem c5_counterexample_sentinel_casing :
    coerce_user_id "NONE" = some "NONE" ∧ coerce_user_id "NONE" ≠ none := by
  decide

/-- C5 (amended): the Normalizer casts to text and then, for user_id, strips
one trailing ".0", maps the exact (untrimmed) texts "nan" / "None" / "NaT"
to absent and trims the survivors; for game_name and reference it maps the
exact texts "nan" / "None" (not "NaT") to absent and trims the survivors;
sentinels in any other casing, or padded with whitespace, remain text. -/
theorem c5_amended_exact_sentinels :
    coerce_user_id "nan" = none ∧ coerce_user_id "None" = none ∧
      coerce_user_id "NaT" = none ∧
      coerce_user_id "123.0" = some "123" ∧ coerce_user_id "None.0" = none ∧
      coerce_user_id " 7 " = some "7" ∧ coerce_user_id "NONE" = some "NONE" ∧
      clean_text "nan" = none ∧ clean_text "None" = none ∧
      clean_text "NaT" = some "NaT" ∧ clean_text " abc " = some "abc" ∧
      clean_text " nan " = some "nan" ∧ clean_text "NONE" = some "NONE" ∧
      (∀ s : String, s ≠ "nan" → s ≠ "None" → clean_text s = some (strTrim s)) ∧
      (∀ s : String, stripDot0 s ≠ "nan" → stripDot0 s ≠ "None" → stripDot0 s ≠ "NaT" →
        coerce_user_id s = some (strTrim (stripDot0 s))) := by
  refine ⟨by decide, by decide, by decide, by decide, by decide, by decide, by decide,
    by decide, by decide, by decide, by decide, by decide, by decide, ?_, ?_⟩
  · intro s h1 h2
    simp [clean_text, h1, h2]
  · intro s h1 h2 h3
    simp [coerce_user_id, h1, h2, h3]

/-- C7: an unknown brand (stripped lowercased form matching no alias and not
sentinel text) passes through as its own lowercased label; empty,
whitespace-only or sentinel input yields the fixed fallback label
"Sem Brand"; and the classifier never outputs a blank label. -/
theorem c7_unknown_passthrough_and_fallback :
    (∀ s : String, strLower (strTrim s) ∉ aliasKeys →
      strLower (strTrim s) ≠ "nan" → strLower (strTrim s) ≠ "none" →
      strLower (strTrim s) ≠ "" →
      normalize_brand s = strLower (strTrim s)) ∧
      normalize_brand "FooBar" = "foobar" ∧
      normalize_brand "" = "Sem Brand" ∧
      normalize_brand "   " = "Sem Brand" ∧
      normalize_brand "nan" = "Sem Brand" ∧
      normalize_brand "NoNe" = "Sem Brand" ∧
      (∀ s : String, normalize_brand s ≠ "") := by
  refine ⟨?_, by decide, by decide, by decide, by decide, by decide, ?_⟩
  · intro s hmem h1 h2 h3
    have halias : brandAlias (strLower (strTrim s)) = strLower (strTrim s) := by
      simp only [aliasKeys, List.mem_cons, List.not_mem_nil, or_false, not_or] at hmem
      obtain ⟨n1, n2, n3, n4, n5, n6, n7, n8, n9⟩ := hmem
      simp [brandAlias, n1, n2, n3, n4, n5, n6, n7, n8, n9]
    unfold normalize_brand
    rw [halias, if_neg (by simp [h1, h2, h3])]
  · intro s
    simp only [normalize_brand]
    split
    · decide
    · next hcond =>
        intro h
        exact hcond (Or.inr (Or.inr h))

/-! ### C1: one FactRow per (brand, reference) key, first occurrence kept -/

/-- The (brand, reference) key predicate, as a Boolean row test. -/
def refMatch (b s : String) (r : CleanRow) : Bool :=
  decide (refKey r = (b, some s))

/-- C1: for every cleaned table holding at least one row with brand b and a
present non-empty reference s and a parseable created_at, the FactRow table
holds exactly one row with that (brand, reference) key — the first such row
(in input order) to survive invariant I1, with all its other column values —
and no two FactRows with the same brand share a reference (invariant I2). -/
theorem c1_dedup_one_row_per_key (t : List CleanRow) (b s : String)
    (h : ∃ r ∈ t, r.brand_name = b ∧ r.reference = some s ∧ 0 < s.length ∧
      r.created_at.isSome = true) :
    (∃ f, (validRows t).find? (refMatch b s) = some f ∧
      (refs_brand noFilter t).filter (refMatch b s) = [f]) ∧
      (refs_brand noFilter t).Pairwise
        (fun r₁ r₂ => r₁.brand_name = r₂.brand_name → r₁.reference ≠ r₂.reference) := by
  constructor
  · have hbase : dff noFilter t = validRows t := by
      rw [dff, applyFilters_noFilter]
    obtain ⟨r, hrt, hb, hs, hlen, hc⟩ := h
    have hrv : validRow r = true := by
      unfold validRow
      rw [hs]
      cases hcc : r.created_at with
      | none => rw [hcc] at hc; simp at hc
      | some c => simpa using hlen
    have hrmem : r ∈ validRows t := List.mem_filter.mpr ⟨hrt, hrv⟩
    have hmatch : refMatch b s r = true := by
      simp [refMatch, refKey, hb, hs]
    have hfind : (validRows t).find? (refMatch b s) ≠ none := by
      intro hnone
      have := List.find?_eq_none.mp hnone r hrmem
      rw [hmatch] at this
      exact this rfl
    cases hf : (validRows t).find? (refMatch b s) with
    | none => exact absurd hf hfind
    | some f =>
      refine ⟨f, rfl, ?_⟩
      have hfk : (refs_brand noFilter t).filter (refMatch b s)
          = ((dff noFilter t).find? (refMatch b s)).toList := by
        have := filter_key_dedupBy refKey (b, some s) (dff noFilter t)
        rw [refs_brand]
        exact this
      rw [hfk, hbase, hf]
      rfl
  · refine (pairwise_dedupBy refKey _).imp ?_
    intro r₁ r₂ hne hbeq hreq
    exact hne (by rw [refKey, refKey, hbeq, hreq])

/-- A table with one triplicated (brand, reference) key for the C1 witness:
the duplicate differs from the first occurrence in every other column. -/
def c1_table : List CleanRow :=
  [⟨some "u1", some "g1", some "A", some 100, "7K"⟩,
   ⟨some "u2", some "g2", some "A", some 200, "7K"⟩,
   ⟨some "u2", some "g2", some "A", some 200, "7K"⟩]

/-- C1 witness: the theorem applied to the concrete triplicated table. -/
theorem c1_dedup_one_row_per_key_witness :
    (∃ f, (validRows c1_table).find? (refMatch "7K" "A") = some f ∧
      (refs_brand noFilter c1_table).filter (refMatch "7K" "A") = [f]) ∧
      (refs_brand noFilter c1_table).Pairwise
        (fun r₁ r₂ => r₁.brand_name = r₂.brand_name → r₁.reference ≠ r₂.reference) :=
  c1_dedup_one_row_per_key c1_table "7K" "A" (by decide)

/-! ### C2: rows violating invariant I1 never reach FactRow or an aggregate -/

/-- C2: every FactRow satisfies invariant I1 (present non-empty reference and
parseable created_at), and discarding the invalid rows of the input changes
neither FactRow nor any downstream aggregate — the per-user-game,
per-time-bucket, per-game-by-brand and per-game-global tables are all
functions of the I1-surviving rows only. -/
theorem c2_invalid_rows_never_appear (t : List CleanRow) (cfg : FilterCfg) (f : Freq) :
    (refs_brand cfg t).all validRow = true ∧
      refs_brand cfg (validRows t) = refs_brand cfg t ∧
      cliente_jogo cfg (validRows t) = cliente_jogo cfg t ∧
      horarios f cfg (validRows t) = horarios f cfg t ∧
      jogos cfg (validRows t) = jogos cfg t ∧
      top_jogos_geral cfg (validRows t) = top_jogos_geral cfg t := by
  have hb : dff cfg (validRows t) = dff cfg t := by
    rw [dff, dff, validRows_idem]
  have hrb : refs_brand cfg (validRows t) = refs_brand cfg t := by
    rw [refs_brand, refs_brand, hb]
  refine ⟨?_, hrb, ?_, ?_, ?_, ?_⟩
  · rw [List.all_eq_true]
    intro r hr
    exact validRow_of_mem_refs_brand hr
  · rw [cliente_jogo, cliente_jogo, hb]
  · rw [horarios, horarios, hrb]
  · rw [jogos, jogos, hrb]
  · rw [top_jogos_geral, top_jogos_geral, jogos, jogos, hrb]

/-! ### C3: filter placement relative to deduplication -/

theorem brandFilter_filter_comm (cfg : FilterCfg) (p : CleanRow → Bool) (t : List CleanRow) :
    (brandFilter cfg t).filter p = brandFilter cfg (t.filter p) := by
  unfold brandFilter
  split
  · rfl
  · rw [List.filter_filter, List.filter_filter]
    exact List.filter_congr (fun a _ => Bool.and_comm _ _)

theorem brandFilter_dedupBy_comm {κ : Type} [DecidableEq κ] (cfg : FilterCfg)
    (key : CleanRow → κ) (hk : ∀ a b, key a = key b → a.brand_name = b.brand_name)
    (l : List CleanRow) :
    dedupBy key (brandFilter cfg l) = brandFilter cfg (dedupBy key l) := by
  unfold brandFilter
  split
  · rfl
  · exact (dedupBy_filter_comm key _ (fun a b h => by rw [hk a b h]) l).symm

/-- The two rows of the C3 counterexample: same (brand, reference) key, two
different user_ids. -/
def c3_table : List CleanRow :=
  [⟨some "alice", some "g1", some "R", some 100, "7K"⟩,
   ⟨some "bob", some "g1", some "R", some 100, "7K"⟩]

/-- The C3 counterexample filter: user_id containing "bob". -/
def c3_cfg : FilterCfg :=
  ⟨[], "bob", ""⟩

/-- C3 counterexample: with a user substring filter "bob" on a table whose
two rows share the (brand, reference) key but have user_ids "alice" and
"bob", filtering then deduplicating (what line 203 computes) keeps the bob
row, while deduplicating then filtering (what the claim asserts it equals)
keeps nothing — the dedup key does not contain user_id. -/
theorem c3_counterexample_user_filter :
    refs_brand c3_cfg c3_table ≠ refs_brand_dedupThenFilter c3_cfg c3_table := by
  decide

/-- C3 (amended): for filter configurations whose user_id and game_name
substrings are empty — i.e. a brand-set filter only — the FactRow table and
every downstream aggregate computed filter-then-dedup (as the code does)
equal those computed dedup-then-filter (as the spec states), because the
brand is part of both dedup keys. With a non-empty user or game substring
filter the two orders differ. -/
theorem c3_amended_brand_only_commutes (t : List CleanRow) (brands : List String) :
    refs_brand ⟨brands, "", ""⟩ t = refs_brand_dedupThenFilter ⟨brands, "", ""⟩ t ∧
      cliente_jogo ⟨brands, "", ""⟩ t = cliente_jogo_dedupThenFilter ⟨brands, "", ""⟩ t ∧
      (∀ f, horarios f ⟨brands, "", ""⟩ t =
        horariosFrom f (refs_brand_dedupThenFilter ⟨brands, "", ""⟩ t)) ∧
      jogos ⟨brands, "", ""⟩ t = jogosFrom (refs_brand_dedupThenFilter ⟨brands, "", ""⟩ t) ∧
      top_jogos_geral ⟨brands, "", ""⟩ t =
        topJogosFrom (jogosFrom (refs_brand_dedupThenFilter ⟨brands, "", ""⟩ t)) := by
  have haf : ∀ l : List CleanRow,
      applyFilters ⟨brands, "", ""⟩ l = brandFilter ⟨brands, "", ""⟩ l :=
    fun l => rfl
  have hrb : refs_brand ⟨brands, "", ""⟩ t =
      refs_brand_dedupThenFilter ⟨brands, "", ""⟩ t := by
    rw [refs_brand, refs_brand_dedupThenFilter, dff, haf, haf]
    exact brandFilter_dedupBy_comm _ refKey
      (fun a b h => congrArg Prod.fst h) (validRows t)
  refine ⟨hrb, ?_, ?_, ?_, ?_⟩
  · rw [cliente_jogo, cliente_jogo_dedupThenFilter, dff, haf, haf]
    rw [brandFilter_filter_comm]
    rw [brandFilter_dedupBy_comm _ cjKey (fun a b h => congrArg Prod.fst h)]
  · intro f
    rw [horarios, hrb]
  · rw [jogos, hrb]
  · rw [top_jogos_geral, jogos, hrb]

/-! ### C6: per-game-by-brand counts sum to the per-game-global count -/

theorem mem_sortDescQtd {κ : Type} (l : List (κ × Nat)) (a : κ × Nat) :
    a ∈ sortDescQtd l ↔ a ∈ l :=
  (List.perm_insertionSort _ l).mem_iff

/-- C6: every per-game-global row carries exactly the sum of that game's
per-game-by-brand counts (the rows of `jogos` with that game_name, one per
brand), and every game of `jogos` has a row in `top_jogos_geral`. -/
theorem c6_per_game_sum_consistency (cfg : FilterCfg) (t : List CleanRow) :
    (∀ p ∈ top_jogos_geral cfg t,
      p.2 = (((jogos cfg t).filter (fun e => decide (e.1.2 = p.1))).map
        (fun e => e.2)).sum) ∧
      (∀ e ∈ jogos cfg t, ∃ q, (e.1.2, q) ∈ top_jogos_geral cfg t) := by
  constructor
  · intro p hp
    rw [top_jogos_geral, topJogosFrom] at hp
    have hp2 := (mem_sortDescQtd _ _).mp hp
    rcases List.mem_map.mp hp2 with ⟨g, hg, rfl⟩
    rfl
  · intro e he
    refine ⟨(((jogos cfg t).filter (fun x => decide (x.1.2 = e.1.2))).map
      (fun x => x.2)).sum, ?_⟩
    rw [top_jogos_geral, topJogosFrom]
    refine (mem_sortDescQtd _ _).mpr ?_
    refine List.mem_map.mpr ⟨e.1.2, ?_, rfl⟩
    exact (mem_dedupBy_id _ _).mpr (List.mem_map_of_mem _ he)

/-! ### C9: time-bucket flooring and formatting -/

/-- C9: the instant 2024-03-01T10:15:42Z (epoch 1709288142) floors to
2024-03-01T10:00:00Z under hour granularity, formatted "01/03/2024 10:00",
and to 2024-03-01T10:15:00Z under minute granularity, formatted
"01/03/2024 10:15"; and in general every per-time-bucket row's formatted
string is DD/MM/YYYY HH:MM of its bucket start, which is the floor of the
created_at of a FactRow of the same brand. -/
theorem c9_bucket_flooring_and_format :
    floorTo .hour 1709288142 = 1709287200 ∧
      fmtTimestamp 1709287200 = "01/03/2024 10:00" ∧
      floorTo .minute 1709288142 = 1709288100 ∧
      fmtTimestamp 1709288100 = "01/03/2024 10:15" ∧
      (∀ (f : Freq) (cfg : FilterCfg) (t : List CleanRow), ∀ e ∈ horarios f cfg t,
        e.horario_utc = (match e.bucket_time with
          | some b => fmtTimestamp b
          | none => "NaT") ∧
        ∃ r ∈ refs_brand cfg t, r.brand_name = e.brand_name ∧
          r.created_at.map (floorTo f) = e.bucket_time) := by
  refine ⟨by decide, by decide, by decide, by decide, ?_⟩
  intro f cfg t e he
  rw [horarios, horariosFrom] at he
  rcases List.mem_map.mp he with ⟨p, hp, rfl⟩
  refine ⟨rfl, ?_⟩
  have hp2 := (mem_sortDescQtd _ _).mp hp
  rcases List.mem_map.mp hp2 with ⟨k, hk, rfl⟩
  have hk2 := (mem_dedupBy_id _ _).mp hk
  rcases List.mem_map.mp hk2 with ⟨r, hr, rfl⟩
  exact ⟨r, hr, rfl, rfl⟩

/-! ### C10: the total-rollbacks KPI equals the FactRow row count -/

theorem filterMap_length_of_isSome {α β : Type} (f : α → Option β) :
    ∀ l : List α, (∀ a ∈ l, (f a).isSome = true) → (l.filterMap f).length = l.length := by
  intro l
  induction l with
  | nil => intro _; rfl
  | cons b bs ih =>
    intro h
    rw [List.filterMap_cons]
    cases hfb : f b with
    | none =>
      have hb := h b (List.mem_cons_self _ _)
      rw [hfb] at hb
      simp at hb
    | some x =>
      simp only [List.length_cons]
      exact congrArg (· + 1) (ih (fun a ha => h a (List.mem_cons_of_mem _ ha)))

theorem filterMap_pairwise_ne {α β : Type} (f : α → Option β) :
    ∀ l : List α, l.Pairwise (fun a c => f a ≠ f c) →
      (l.filterMap f).Pairwise (fun x y => x ≠ y) := by
  intro l
  induction l with
  | nil => intro _; simp
  | cons b bs ih =>
    intro h
    rw [List.filterMap_cons]
    cases hfb : f b with
    | none => exact ih (List.Pairwise.of_cons h)
    | some x =>
      refine List.Pairwise.cons ?_ (ih (List.Pairwise.of_cons h))
      intro y hy
      rcases List.mem_filterMap.mp hy with ⟨c, hc, hfc⟩
      have hne := (List.pairwise_cons.mp h).1 c hc
      intro hxy
      exact hne (by rw [hfb, hfc, hxy])

theorem pairwise_ref_ne_of_brand (rb : List CleanRow) (b : String)
    (hpw : rb.Pairwise (fun a c => refKey a ≠ refKey c)) :
    (rb.filter (fun r => decide (r.brand_name = b))).Pairwise
      (fun a c => a.reference ≠ c.reference) := by
  induction rb with
  | nil => simp
  | cons a as ih =>
    rw [List.filter_cons]
    rcases List.pairwise_cons.mp hpw with ⟨hhead, htail⟩
    cases hda : (decide (a.brand_name = b)) with
    | false =>
      simp only [hda, Bool.false_eq_true, if_false]
      exact ih htail
    | true =>
      simp only [hda, if_true, eq_self_iff_true]
      refine List.Pairwise.cons ?_ (ih htail)
      intro c hc
      have hcmem := List.mem_filter.mp hc
      have hcb : c.brand_name = b := of_decide_eq_true hcmem.2
      have hab : a.brand_name = b := of_decide_eq_true hda
      have hne := hhead c hcmem.1
      intro hrefeq
      exact hne (by rw [refKey, refKey, hab, hcb, hrefeq])

/-- C10: the total-rollbacks KPI (distinct references per brand within
FactRow, summed over the distinct brands) equals the number of FactRow rows,
because FactRow is deduplicated on exactly (brand, reference). -/
theorem c10_total_rollbacks_eq_factrow_length (cfg : FilterCfg) (t : List CleanRow) :
    total_rollbacks cfg t = (refs_brand cfg t).length := by
  simp only [total_rollbacks]
  have hpw : (refs_brand cfg t).Pairwise (fun a c => refKey a ≠ refKey c) :=
    pairwise_dedupBy refKey _
  have hfun : ∀ b : String,
      (dedupBy id (((refs_brand cfg t).filter
        (fun r => decide (r.brand_name = b))).filterMap (fun r => r.reference))).length =
      ((refs_brand cfg t).filter (fun r => decide (r.brand_name = b))).length := by
    intro b
    have hprw := pairwise_ref_ne_of_brand (refs_brand cfg t) b hpw
    have hsome : ∀ r ∈ (refs_brand cfg t).filter (fun r => decide (r.brand_name = b)),
        (r.reference).isSome = true := by
      intro r hr
      have hv := validRow_of_mem_refs_brand (List.mem_filter.mp hr).1
      unfold validRow at hv
      cases href : r.reference with
      | none =>
        rw [href] at hv
        cases hcc : r.created_at <;> rw [hcc] at hv <;> simp at hv
      | some x => rfl
    have hfm := filterMap_pairwise_ne (fun r : CleanRow => r.reference) _ hprw
    rw [dedupBy_eq_self id _ (hfm.imp (fun hne => hne))]
    exact filterMap_length_of_isSome (fun r : CleanRow => r.reference) _ hsome
  rw [List.map_congr_left (fun b _ => hfun b)]
  exact sum_counts_by_key (fun r : CleanRow => r.brand_name) (refs_brand cfg t)

/-! ### C8: header validation -/

theorem require_cols_isOk (cols : List String) :
    (∃ m, require_cols cols = Except.ok m) ↔ ∀ r ∈ required5, hasCol cols r = true := by
  simp only [require_cols]
  cases hfl : required5.filter (fun r => !hasCol cols r) with
  | nil =>
    simp only [List.isEmpty_nil, if_true, eq_self_iff_true]
    constructor
    · intro _
      intro r hr
      have := List.filter_eq_nil_iff.mp hfl r hr
      simpa using this
    · intro _
      exact ⟨_, rfl⟩
  | cons y ys =>
    simp only [List.isEmpty_cons, Bool.false_eq_true, if_false]
    constructor
    · rintro ⟨m, hm⟩
      exact Except.noConfusion hm
    · intro hall
      have hy : y ∈ required5.filter (fun r => !hasCol cols r) := by
        rw [hfl]
        exact List.mem_cons_self _ _
      have hy2 := List.mem_filter.mp hy
      rw [hall y hy2.1] at hy2
      simp at hy2

/-- C8: header validation matches the five required names case-insensitively
with surrounding whitespace ignored, in one pass over the headers alone: an
error carries exactly the (non-empty) list of every required column with no
matching header; when every required column has a match the result is the
required-to-header mapping, and appending extra columns can never turn
success into failure. -/
theorem c8_header_validation :
    (∀ (cols miss : List String), require_cols cols = Except.error miss →
      miss ≠ [] ∧ ∀ r : String, (r ∈ miss ↔ r ∈ required5 ∧ hasCol cols r = false)) ∧
      (∀ cols : List String, (∀ r ∈ required5, hasCol cols r = true) →
        require_cols cols = Except.ok (required5.map (fun r => (r, colLookup cols r)))) ∧
      (∀ (cols extra : List String) (m : List (String × String)),
        require_cols cols = Except.ok m →
        ∃ m2, require_cols (cols ++ extra) = Except.ok m2) ∧
      require_cols ["  USER_ID ", "Game_Name", "REFERENCE", "created_at", " Brand_Name",
        "extra_col"] = Except.ok
        [("user_id", "  USER_ID "), ("game_name", "Game_Name"), ("reference", "REFERENCE"),
         ("created_at", "created_at"), ("brand_name", " Brand_Name")] ∧
      require_cols ["user_id", "reference"] =
        Except.error ["game_name", "created_at", "brand_name"] := by
  refine ⟨?_, ?_, ?_, by rfl, by rfl⟩
  · intro cols miss h
    simp only [require_cols] at h
    split at h
    · exact Except.noConfusion h
    · next hne =>
      injection h with h2
      subst h2
      constructor
      · intro hnil
        rw [hnil] at hne
        exact hne rfl
      · intro r
        rw [List.mem_filter]
        constructor
        · rintro ⟨h1, h2⟩
          refine ⟨h1, ?_⟩
          simpa using h2
        · rintro ⟨h1, h2⟩
          exact ⟨h1, by simp [h2]⟩
  · intro cols hall
    simp only [require_cols]
    have hm : required5.filter (fun r => !hasCol cols r) = [] := by
      rw [List.filter_eq_nil_iff]
      intro r hr
      simp [hall r hr]
    rw [hm]
    rfl
  · intro cols extra m h
    have hall := (require_cols_isOk cols).mp ⟨m, h⟩
    have hall2 : ∀ r ∈ required5, hasCol (cols ++ extra) r = true := by
      intro r hr
      have h1 := hall r hr
      unfold hasCol at h1 ⊢
      rw [List.any_append, h1, Bool.true_or]
    exact (require_cols_isOk (cols ++ extra)).mpr hall2

end Rollback
